import Mathlib

/-!
# Verification of the llm-mux credential-multiplexing core

Shallow embedding of the auth registry / selector / quota manager /
token refresher / payload sanitizer of the llm-mux gateway, together
with proofs of the spec claims about them.

Time is modelled as an integer number of seconds (`Int`); Go's zero
`time.Time` is modelled as `0`.  Durations are integers in seconds.
Where a component's source is not part of the repository snapshot
(only its tests are), the corresponding definition is modelled from
the specification and says so in its doc comment.
-/

namespace LlmMux

/-- Status of an auth entry: Active, Disabled, Error, Cooling, Unavailable. -/
inductive AuthStatus where
  | active
  | disabled
  | error
  | cooling
  | unavailable
deriving DecidableEq, Repr

/-- Per-(auth, model) quota snapshot: `QuotaState { Exceeded, NextRecoverAt, ExponentialLevel }`. -/
structure QuotaState where
  Exceeded : Bool := false
  NextRecoverAt : Int := 0
  ExponentialLevel : Int := 0
deriving DecidableEq, Repr

/-- Per-auth per-model state: `ModelState { Status, Unavailable, NextRetryAfter, Quota }`. -/
structure ModelState where
  Status : AuthStatus := .active
  Unavailable : Bool := false
  NextRetryAfter : Int := 0
  Quota : QuotaState := {}
deriving DecidableEq, Repr

/-- One credential entry.  Metadata-derived quantities that the Go code reads
through parsing helpers whose sources are outside the snapshot
(`Auth.ExpirationTime`, `authPreferredInterval`, `authLastRefreshTimestamp`)
are modelled as explicit fields carrying the parsed values; the refresh
evaluator capability `Auth.Runtime` is modelled as an optional predicate on
the current time. -/
structure Auth where
  ID : String
  Provider : String := ""
  Status : AuthStatus := .active
  Disabled : Bool := false
  Unavailable : Bool := false
  NextRetryAfter : Int := 0
  NextRefreshAfter : Int := 0
  LastRefreshedAt : Int := 0
  ModelStates : List (String × ModelState) := []
  Runtime : Option (Int → Bool) := none
  ExpirationTime : Int := 0
  HasExpirationTime : Bool := false
  PreferredIntervalSeconds : Int := 0
  LastRefreshTimestampMeta : Option Int := none

/-- Upstream error as surfaced to the registry with a failed `Result`. -/
structure ProviderError where
  Code : String := ""
  Message : String := ""
  HTTPStatus : Int := 0
  RetryAfter : Option Int := none
deriving DecidableEq, Repr

/-- Outcome of one request attempt, handed to `MarkResult`. -/
structure Result where
  AuthID : String := ""
  Provider : String := ""
  Model : String := ""
  Success : Bool := false
  Error : Option ProviderError := none
deriving DecidableEq, Repr

/-- Per-auth quota bookkeeping held by the quota manager:
`AuthQuotaState { ActiveRequests, TotalTokensUsed, CooldownUntil, LearnedCooldown, LastExhaustedAt, ExponentialLevel }`. -/
structure AuthQuotaState where
  ActiveRequests : Int := 0
  TotalTokensUsed : Int := 0
  CooldownUntil : Int := 0
  LearnedCooldown : Int := 0
  LastExhaustedAt : Int := 0
  ExponentialLevel : Int := 0
deriving DecidableEq, Repr

/-! ## Quota strategies (spec-modelled: the quota manager source is not in the snapshot) -/

/-- Thirty minutes in seconds: the cap on the exponential quota backoff. -/
def maxQuotaBackoff : Int := 30 * 60

/-- Modelled from the spec: `nextQuotaCooldown` of the provider package (only its
tests are in the snapshot).  For a 429 with no explicit Retry-After: level `k`
(negative treated as 0) yields `2^k` seconds capped at 30 minutes; the level
advances only while below the cap; with the global cooldown switch off it
returns zero and leaves the level unchanged. -/
def nextQuotaCooldown (cooldownDisabled : Bool) (prevLevel : Int) : Int × Int :=
  if cooldownDisabled then (0, prevLevel)
  else
    let k := max prevLevel 0
    let raw : Int := 2 ^ k.toNat
    if maxQuotaBackoff ≤ raw then (maxQuotaBackoff, k) else (raw, k + 1)

/-- Modelled from the spec: `QuotaStrategy.OnSuccess` (§4.4; strategy sources are
not in the snapshot).  Clears `CooldownUntil`, resets the backoff level, and
retains `LearnedCooldown`. -/
def onSuccess (q : AuthQuotaState) : AuthQuotaState :=
  { q with CooldownUntil := 0, ExponentialLevel := 0 }

/-- Modelled from the spec: `QuotaStrategy.OnQuotaHit` (§4.4; strategy sources are
not in the snapshot).  `CooldownUntil` is set from the explicit cooldown when
one is supplied (which is also learned for next time), else from the learned
value when positive, else from the provider default passed in. -/
def onQuotaHit (defaultCooldown : Int) (q : AuthQuotaState) (explicit : Option Int)
    (now : Int) : AuthQuotaState :=
  match explicit with
  | some d => { q with CooldownUntil := now + d, LearnedCooldown := d, LastExhaustedAt := now }
  | none =>
      if 0 < q.LearnedCooldown then
        { q with CooldownUntil := now + q.LearnedCooldown, LastExhaustedAt := now }
      else
        { q with CooldownUntil := now + defaultCooldown, LastExhaustedAt := now }

/-- The Claude strategy's default quota cooldown: five hours, in seconds. -/
def claudeDefaultCooldown : Int := 5 * 3600

/-- Modelled from the spec: `ClaudeStrategy.OnQuotaHit` (only its tests are in the
snapshot): `onQuotaHit` with the five-hour Claude default. -/
def ClaudeOnQuotaHit (q : AuthQuotaState) (explicit : Option Int) (now : Int) : AuthQuotaState :=
  onQuotaHit claudeDefaultCooldown q explicit now

/-- Modelled from the spec: the per-provider default cooldown used on a quota hit
with no explicit and no learned value (§4.4): Claude uses five hours, other
providers use the exponential backoff of §7 at the state's current level. -/
def providerDefaultCooldown (provider : String) (cooldownDisabled : Bool) (level : Int) : Int :=
  if provider = "claude" then claudeDefaultCooldown
  else (nextQuotaCooldown cooldownDisabled level).1

/-- Modelled from the spec: `QuotaManager.RecordRequestEnd` (§4.4; only its tests
are in the snapshot).  Decrements `ActiveRequests`, adds the token count, and
on a non-failed result clears the cooldown through the strategy's `OnSuccess`. -/
def RecordRequestEnd (q : AuthQuotaState) (tokens : Int) (failed : Bool) : AuthQuotaState :=
  let q1 := { q with ActiveRequests := q.ActiveRequests - 1,
                     TotalTokensUsed := q.TotalTokensUsed + tokens }
  if failed then q1 else onSuccess q1

/-! ## Result marking and the auth-failure disable rule
(spec-modelled: the registry / circuit-breaker source is not in the snapshot) -/

/-- `true` when `pat` occurs as a contiguous substring of `s`. -/
def charsContain (s pat : List Char) : Bool :=
  s.tails.any (fun t => pat.isPrefixOf t)

/-- Modelled from the spec: the known set of "revoked" message substrings
(case-insensitive, token-specific) of §4.9 and §7 — a revoke message or
`invalid_grant` from a refresh endpoint. -/
def revokedMarkers : List String := ["revoked", "invalid_grant"]

/-- Case-insensitive test for a revoked-token marker in an error message
(the message is lowercased character-wise, as `strings.ToLower` does). -/
def containsRevokedMarker (msg : String) : Bool :=
  revokedMarkers.any (fun m => charsContain (msg.toList.map Char.toLower) m.toList)

/-- Modelled from the spec: `applyAuthFailureState` of the provider package (only
its tests are in the snapshot).  Per §4.9's disable rule and scenarios S4/S5:
a failed result with HTTP status 401 or 403, or with a revoked-token marker in
the message, marks the auth `Disabled` with `Status = Disabled`; any other
failure leaves the auth untouched. -/
def applyAuthFailureState (a : Auth) (e : ProviderError) : Auth :=
  if e.HTTPStatus = 401 ∨ e.HTTPStatus = 403 ∨ containsRevokedMarker e.Message then
    { a with Disabled := true, Status := .disabled }
  else a

/-- Modelled from the spec: `Registry.MarkResult` (§4.1, §4.9; only its tests are
in the snapshot), acting on one auth and its quota state.  A successful result
clears the cooldown through the strategy's `OnSuccess`; a 429 cools the auth
through the strategy's `OnQuotaHit` and never disables it; other failures go
through `applyAuthFailureState`. -/
def MarkResult (cooldownDisabled : Bool) (a : Auth) (q : AuthQuotaState) (r : Result)
    (now : Int) : Auth × AuthQuotaState :=
  if r.Success then (a, onSuccess q)
  else
    match r.Error with
    | none => (a, q)
    | some e =>
        if e.HTTPStatus = 429 then
          (a, onQuotaHit (providerDefaultCooldown r.Provider cooldownDisabled q.ExponentialLevel)
                q e.RetryAfter now)
        else (applyAuthFailureState a e, q)

/-! ## Selector (spec-modelled: the selector source is not in the snapshot) -/

/-- Why a candidate was rejected by the selector's filter. -/
inductive BlockReason where
  | notBlocked
  | disabledAuth
  | cooldown
  | other
deriving DecidableEq, Repr

/-- Association-list lookup for a model's state. -/
def findModelState (states : List (String × ModelState)) (model : String) : Option ModelState :=
  match states.find? (fun p => p.1 = model) with
  | some p => some p.2
  | none => none

/-- Modelled from the spec: `isAuthBlockedForModel` of the selector (only its
tests are in the snapshot).  Implements the pickability predicate of §3: a nil
auth is blocked; a disabled auth (flag or status) is blocked; a model state
with `Status = Disabled` blocks; a model-level or auth-level soft cooldown
(`Unavailable` with `NextRetryAfter > now`), or a quota cooldown
(`CooldownUntil > now`), blocks with the remaining wait.  Returns the blocked
flag, the reason, and the remaining cooldown wait in seconds. -/
def isAuthBlockedForModel (a : Option Auth) (model : String) (now : Int)
    (quotaCooldownUntil : Int) : Bool × BlockReason × Int :=
  match a with
  | none => (true, .other, 0)
  | some a =>
      if a.Disabled ∨ a.Status = .disabled then (true, .disabledAuth, 0)
      else
        match findModelState a.ModelStates model with
        | some ms =>
            if ms.Status = .disabled then (true, .disabledAuth, 0)
            else if ms.Unavailable ∧ now < ms.NextRetryAfter then
              (true, .cooldown, ms.NextRetryAfter - now)
            else if a.Unavailable ∧ now < a.NextRetryAfter then
              (true, .cooldown, a.NextRetryAfter - now)
            else if now < quotaCooldownUntil then
              (true, .cooldown, quotaCooldownUntil - now)
            else (false, .notBlocked, 0)
        | none =>
            if a.Unavailable ∧ now < a.NextRetryAfter then
              (true, .cooldown, a.NextRetryAfter - now)
            else if now < quotaCooldownUntil then
              (true, .cooldown, quotaCooldownUntil - now)
            else (false, .notBlocked, 0)

/-- Errors the selector's `Pick` can return.  `modelCooldown` is the
`model_cooldown_error` carrying the minimum remaining wait; `allBlocked` is the
distinct non-retryable error for candidates filtered for other reasons. -/
inductive PickError where
  | authNotFound
  | modelCooldown (model : String) (retryAfter : Int)
  | allBlocked
deriving DecidableEq, Repr

/-- HTTP status carried by a selector error: the `model_cooldown_error` shapes a
429 response (as `modelCooldownError.StatusCode` does in the tests). -/
def PickError.StatusCode : PickError → Int
  | .authNotFound => 404
  | .modelCooldown _ _ => 429
  | .allBlocked => 503

/-- Retry-After seconds carried by a selector error. -/
def PickError.RetryAfter : PickError → Int
  | .modelCooldown _ w => w
  | _ => 0

/-- Selector options: `ForceRotate` skips the sticky lookup. -/
structure PickOptions where
  ForceRotate : Bool := false
deriving DecidableEq, Repr

/-- An auth is pickable for `(model, now)` when the filter does not block it. -/
def isPickable (quota : String → Int) (model : String) (now : Int) (a : Auth) : Bool :=
  ¬(isAuthBlockedForModel (some a) model now (quota a.ID)).1

/-- Remaining cooldown wait of a candidate blocked for cooldown, if any. -/
def blockedCooldownWait (quota : String → Int) (model : String) (now : Int) (a : Auth) :
    Option Int :=
  match isAuthBlockedForModel (some a) model now (quota a.ID) with
  | (true, .cooldown, w) => some w
  | _ => none

/-- Minimum of a list of waits. -/
def minWait : List Int → Option Int
  | [] => none
  | w :: ws =>
      match minWait ws with
      | none => some w
      | some m => some (min w m)

/-- Modelled from the spec: `Selector.Pick` (§4.3; only its tests are in the
snapshot).  `quota` gives each auth ID's quota `CooldownUntil`; `sticky` is the
sticky store's entry for the caller's `(provider, fingerprint)`; `rotation` is
the per-`(provider, model)` round-robin counter.  Filters the candidates to
the pickable ones; with no candidates returns `auth_not_found`; with all
candidates filtered and at least one in cooldown returns the
`model_cooldown_error` carrying the minimum remaining wait; otherwise honours
the sticky entry unless `ForceRotate`, then picks round-robin. -/
def Pick (candidates : List Auth) (model : String) (opts : PickOptions) (now : Int)
    (quota : String → Int) (sticky : Option String) (rotation : Nat) :
    Except PickError Auth :=
  if candidates.isEmpty then .error .authNotFound
  else
    match candidates.filter (isPickable quota model now) with
    | [] =>
        match minWait (candidates.filterMap (blockedCooldownWait quota model now)) with
        | some w => .error (.modelCooldown model w)
        | none => .error .allBlocked
    | p :: ps =>
        if opts.ForceRotate then
          .ok ((p :: ps).get ⟨rotation % (p :: ps).length, Nat.mod_lt _ (Nat.succ_pos _)⟩)
        else
          match sticky.bind (fun id => (p :: ps).find? (fun a => a.ID = id)) with
          | some a => .ok a
          | none => .ok ((p :: ps).get ⟨rotation % (p :: ps).length, Nat.mod_lt _ (Nat.succ_pos _)⟩)

/-! ## Token refresher: `shouldRefresh` and its helpers, from the source -/

/-- `authPreferredInterval`: the explicit refresh interval from the auth's
metadata and attributes.  The metadata parsing helpers
(`durationFromMetadata`, `parseDurationValue`, ...) are outside the snapshot;
the parsed value is the `PreferredIntervalSeconds` field, with `0` meaning no
interval is set, matching the Go function's zero return. -/
def authPreferredInterval (a : Option Auth) : Int :=
  match a with
  | none => 0
  | some a => if 0 < a.PreferredIntervalSeconds then a.PreferredIntervalSeconds else 0

/-- `authLastRefreshTimestamp`: the last-refresh time recorded in the auth's
metadata or attributes, modelled by the `LastRefreshTimestampMeta` field. -/
def authLastRefreshTimestamp (a : Option Auth) : Option Int :=
  match a with
  | none => none
  | some a => a.LastRefreshTimestampMeta

/-- `strings.ToLower`, character-wise. -/
def toLowerStr (s : String) : String :=
  String.mk (s.toList.map Char.toLower)

/-- `ProviderRefreshLead`: the per-provider refresh lead registered by each
provider executor, looked up case-insensitively in the registration table
(modelled as the `leads` map from lowercase provider name to duration). -/
def ProviderRefreshLead (leads : String → Option Int) (provider : String) : Option Int :=
  leads (toLowerStr provider)

/-- `Manager.shouldRefresh` from the refresher source: decides whether an auth
needs a token refresh at time `now`.  `wall` is the wall-clock instant that
`time.Until` reads inside the positive-lead branch (the surrounding code
passes `now = time.Now()`, so `wall = now` there). -/
def shouldRefresh (leads : String → Option Int) (a : Option Auth) (now wall : Int) : Bool :=
  match a with
  | none => false
  | some a =>
      if a.Disabled then false
      else if a.NextRefreshAfter ≠ 0 ∧ now < a.NextRefreshAfter then false
      else
        match a.Runtime with
        | some evaluator => evaluator now
        | none =>
            let lastRefresh :=
              if a.LastRefreshedAt = 0 then
                match authLastRefreshTimestamp (some a) with
                | some ts => ts
                | none => 0
              else a.LastRefreshedAt
            let expiry := a.ExpirationTime
            let hasExpiry := a.HasExpirationTime
            let interval := authPreferredInterval (some a)
            if 0 < interval then
              if hasExpiry ∧ expiry ≠ 0 ∧ ¬(now < expiry) then true
              else if hasExpiry ∧ expiry ≠ 0 ∧ expiry - now ≤ interval then true
              else if lastRefresh = 0 then true
              else decide (interval ≤ now - lastRefresh)
            else
              match ProviderRefreshLead leads a.Provider with
              | none => false
              | some lead =>
                  if lead ≤ 0 then
                    if hasExpiry ∧ expiry ≠ 0 then decide (expiry < now) else false
                  else if hasExpiry ∧ expiry ≠ 0 then
                    decide (expiry - wall ≤ lead)
                  else if lastRefresh ≠ 0 then
                    decide (lead ≤ now - lastRefresh)
                  else true

/-- The effective last-refresh instant `shouldRefresh` works with:
`LastRefreshedAt`, falling back to the metadata timestamp when zero. -/
def effectiveLastRefresh (a : Auth) : Int :=
  if a.LastRefreshedAt = 0 then
    match authLastRefreshTimestamp (some a) with
    | some ts => ts
    | none => 0
  else a.LastRefreshedAt

/-! ## Payload sanitizer, from the source (`ir` package) -/

/-- A decoded JSON value (Go's `any` after `json.Unmarshal`): objects are
association lists in iteration order. -/
inductive JValue where
  | null
  | bool (b : Bool)
  | num (n : Int)
  | str (s : String)
  | arr (items : List JValue)
  | obj (fields : List (String × JValue))
deriving Repr

/-- The field types of the sanitizer's whitelist specs. -/
inductive FieldType where
  | any
  | object
  | array
  | string
  | number
  | boolean
deriving DecidableEq, Repr

/-- A whitelist entry: `FieldSpec { Type, Nullable, Children, Items }`.
`Children` is `none` for the nil map. -/
inductive FieldSpec where
  | mk (ftype : FieldType) (nullable : Bool)
       (children : Option (List (String × FieldSpec))) (items : Option FieldSpec)

/-- The `Type` field of a `FieldSpec`. -/
def FieldSpec.ftype : FieldSpec → FieldType
  | .mk t _ _ _ => t

/-- The `Nullable` field of a `FieldSpec`. -/
def FieldSpec.Nullable : FieldSpec → Bool
  | .mk _ n _ _ => n

/-- The `Children` field of a `FieldSpec` (`none` = nil map). -/
def FieldSpec.Children : FieldSpec → Option (List (String × FieldSpec))
  | .mk _ _ c _ => c

/-- The `Items` field of a `FieldSpec` (`none` = nil pointer). -/
def FieldSpec.Items : FieldSpec → Option FieldSpec
  | .mk _ _ _ i => i

/-- A payload whitelist spec: `PayloadSpec { Name, Fields }`. -/
structure PayloadSpec where
  Name : String
  Fields : List (String × FieldSpec)

/-- `ValidationAction`: `removed`, `nullified` or `fixed`. -/
inductive ValidationAction where
  | removed
  | nullified
  | fixed
deriving DecidableEq, Repr

/-- One sanitation log line: `ValidationEntry { Path, Action, Reason }`. -/
structure ValidationEntry where
  Path : String
  Action : ValidationAction
  Reason : String
deriving DecidableEq, Repr

/-- `ValidationReport { SpecName, Entries, Changed }`. -/
structure ValidationReport where
  SpecName : String := ""
  Entries : List ValidationEntry := []
  Changed : Bool := false
deriving DecidableEq, Repr

/-- `ValidationReport.AddEntry`: append an entry and flag the report changed. -/
def ValidationReport.AddEntry (r : ValidationReport) (path : String)
    (action : ValidationAction) (reason : String) : ValidationReport :=
  { r with Entries := r.Entries ++ [{ Path := path, Action := action, Reason := reason }],
           Changed := true }

/-- The digit loop of the `ir` package's `itoa` helper. -/
def itoaDigits (i : Nat) (digits : List Char) : List Char :=
  if 0 < i then itoaDigits (i / 10) (Char.ofNat (48 + i % 10) :: digits) else digits

/-- `itoa` from the `ir` package: decimal rendering of an array index. -/
def itoaGo (i : Nat) : String :=
  if i < 10 then String.mk [Char.ofNat (48 + i)] else String.mk (itoaDigits i [])

/-- Field-path concatenation used throughout the sanitizer. -/
def joinPath (path key : String) : String :=
  if path = "" then key else path ++ "." ++ key

/-- Go's `value == nil` test on a decoded JSON value. -/
def JValue.isNull : JValue → Bool
  | .null => true
  | _ => false

mutual

/-- `sanitizeAnyValue`: untyped sanitation — recurse into objects and arrays,
strip literal `"[undefined]"` / `"undefined"` strings (recording the removal),
pass every other scalar through. -/
def sanitizeAnyValue (value : JValue) (path : String) (report : ValidationReport) :
    Option JValue × ValidationReport :=
  match value with
  | .obj fields =>
      let r := sanitizeAnyObject fields path report
      (some (.obj r.1), r.2)
  | .arr items =>
      let r := sanitizeAnyArray items path report 0
      (some (.arr r.1), r.2)
  | .str s =>
      if s = "[undefined]" ∨ s = "undefined" then
        (none, report.AddEntry path .removed "undefined value")
      else (some (.str s), report)
  | v => (some v, report)

/-- `sanitizeAnyObject`: drop null members of an untyped object (recording each
removal) and sanitize the rest. -/
def sanitizeAnyObject (obj : List (String × JValue)) (path : String)
    (report : ValidationReport) : List (String × JValue) × ValidationReport :=
  match obj with
  | [] => ([], report)
  | (k, v) :: rest =>
      if v.isNull then
        sanitizeAnyObject rest path
          (report.AddEntry (joinPath path k) .removed "null value in untyped object")
      else
        let r1 := sanitizeAnyValue v (joinPath path k) report
        let r2 := sanitizeAnyObject rest path r1.2
        (match r1.1 with
         | some sv => (k, sv) :: r2.1
         | none => r2.1,
         r2.2)

/-- `sanitizeAnyArray`: skip null items of an untyped array (silently) and
sanitize the rest; `i` is the running source index used in paths. -/
def sanitizeAnyArray (arr : List JValue) (path : String) (report : ValidationReport)
    (i : Nat) : List JValue × ValidationReport :=
  match arr with
  | [] => ([], report)
  | item :: rest =>
      if item.isNull then sanitizeAnyArray rest path report (i + 1)
      else
        let r1 := sanitizeAnyValue item (path ++ "[" ++ itoaGo i ++ "]") report
        let r2 := sanitizeAnyArray rest path r1.2 (i + 1)
        (match r1.1 with
         | some sv => sv :: r2.1
         | none => r2.1,
         r2.2)

end

/-- Whitelist lookup (`allowedFields[key]` of the Go map). -/
def lookupField (fields : List (String × FieldSpec)) (key : String) : Option FieldSpec :=
  match fields.find? (fun p => p.1 = key) with
  | some p => some p.2
  | none => none

mutual

/-- `sanitizeObject`: keep only whitelisted keys (recording each drop), drop
nulls from non-nullable fields (recording each drop, keeping nulls where
`Nullable`), and sanitize kept values against their field specs. -/
def sanitizeObject (data : List (String × JValue)) (allowedFields : List (String × FieldSpec))
    (path : String) (report : ValidationReport) :
    List (String × JValue) × ValidationReport :=
  match data with
  | [] => ([], report)
  | (key, value) :: rest =>
      match lookupField allowedFields key with
      | none =>
          sanitizeObject rest allowedFields path
            (report.AddEntry (joinPath path key) .removed "not in whitelist")
      | some spec =>
          if value.isNull then
            if spec.Nullable then
              let r := sanitizeObject rest allowedFields path report
              ((key, .null) :: r.1, r.2)
            else
              sanitizeObject rest allowedFields path
                (report.AddEntry (joinPath path key) .removed "null not allowed")
          else
            let r1 := sanitizeValue value spec (joinPath path key) report
            let r2 := sanitizeObject rest allowedFields path r1.2
            (match r1.1 with
             | some sv => (key, sv) :: r2.1
             | none => r2.1,
             r2.2)
termination_by sizeOf data

/-- `sanitizeValue`: typed sanitation of one value against its field spec;
a nil (JSON null) value yields Go-nil, as the function's opening nil check
does; type mismatches remove the value with a report entry. -/
def sanitizeValue (value : JValue) (spec : FieldSpec) (path : String)
    (report : ValidationReport) : Option JValue × ValidationReport :=
  match value with
  | .null => (none, report)
  | value =>
      match spec.ftype with
      | .any => sanitizeAnyValue value path report
      | .object =>
          match value with
          | .obj fields =>
              match spec.Children with
              | some children =>
                  let r := sanitizeObject fields children path report
                  (some (.obj r.1), r.2)
              | none => sanitizeAnyValue (.obj fields) path report
          | _ => (none, report.AddEntry path .removed "expected object")
      | .array =>
          match value with
          | .arr items =>
              let r := sanitizeArray items spec.Items path report 0
              (some (.arr r.1), r.2)
          | _ => (none, report.AddEntry path .removed "expected array")
      | .string =>
          match value with
          | .str s => (some (.str s), report)
          | _ => (none, report.AddEntry path .removed "expected string")
      | .number =>
          match value with
          | .num n => (some (.num n), report)
          | _ => (none, report.AddEntry path .removed "expected number")
      | .boolean =>
          match value with
          | .bool b => (some (.bool b), report)
          | _ => (none, report.AddEntry path .removed "expected boolean")
termination_by sizeOf value

/-- `sanitizeArray`: skip null items (silently), sanitize the rest against the
item spec when there is one, untyped otherwise; `i` is the source index. -/
def sanitizeArray (arr : List JValue) (itemSpec : Option FieldSpec) (path : String)
    (report : ValidationReport) (i : Nat) : List JValue × ValidationReport :=
  match arr with
  | [] => ([], report)
  | item :: rest =>
      if item.isNull then sanitizeArray rest itemSpec path report (i + 1)
      else
        let r1 :=
          match itemSpec with
          | some ispec => sanitizeValue item ispec (path ++ "[" ++ itoaGo i ++ "]") report
          | none => sanitizeAnyValue item (path ++ "[" ++ itoaGo i ++ "]") report
        let r2 := sanitizeArray rest itemSpec path r1.2 (i + 1)
        (match r1.1 with
         | some sv => sv :: r2.1
         | none => r2.1,
         r2.2)
termination_by sizeOf arr

end

/-- `ValidateAndSanitizePayload`, parameterized by the JSON codec it delegates
to (`parse` models `json.Unmarshal` into a top-level object, `render` models
`json.Marshal`; both live outside the snapshot's `json` wrapper).  With a nil
spec or empty payload, an unparseable payload, or a marshal failure, the
original bytes pass through; an unchanged report also passes the original
through. -/
def ValidateAndSanitizePayload (parse : String → Option (List (String × JValue)))
    (render : List (String × JValue) → Option String)
    (payload : String) (spec : Option PayloadSpec) : String × ValidationReport :=
  match spec with
  | none => (payload, { SpecName := "none", Changed := false })
  | some spec =>
      if payload.isEmpty then (payload, { SpecName := "none", Changed := false })
      else
        match parse payload with
        | none => (payload, { SpecName := spec.Name, Changed := false })
        | some data =>
            let (cleaned, report) := sanitizeObject data spec.Fields "" { SpecName := spec.Name }
            if report.Changed = false then (payload, report)
            else
              match render cleaned with
              | none => (payload, report)
              | some result => (result, report)

/-! ## Claims about the quota strategies -/

/-- C5: For every auth in cooldown, a successful (non-failed) `RecordRequestEnd`
invokes the strategy's `OnSuccess`, after which `CooldownUntil` is zero (so the
auth's quota cooldown no longer blocks it) while `LearnedCooldown` is
unchanged. -/
theorem C5_success_end_clears_cooldown (q : AuthQuotaState) (tokens now : Int)
    (_hcool : now < q.CooldownUntil) :
    RecordRequestEnd q tokens false
      = onSuccess { q with ActiveRequests := q.ActiveRequests - 1,
                           TotalTokensUsed := q.TotalTokensUsed + tokens }
    ∧ (RecordRequestEnd q tokens false).CooldownUntil = 0
    ∧ (RecordRequestEnd q tokens false).LearnedCooldown = q.LearnedCooldown :=
  ⟨rfl, rfl, rfl⟩

/-- Witness for C5 at a concrete cooling state. -/
theorem C5_success_end_clears_cooldown_witness :
    (RecordRequestEnd { CooldownUntil := 3600, LearnedCooldown := 7200 } 50 false).CooldownUntil = 0
    ∧ (RecordRequestEnd { CooldownUntil := 3600, LearnedCooldown := 7200 } 50 false).LearnedCooldown
        = 7200 := by
  have h := C5_success_end_clears_cooldown
    { CooldownUntil := 3600, LearnedCooldown := 7200 } 50 0 (by norm_num)
  exact ⟨h.2.1, h.2.2⟩

/-- C6: `ClaudeStrategy.OnQuotaHit` sets `CooldownUntil` with the precedence:
the explicit cooldown when supplied, else the learned cooldown when one
exists, else the Claude default of five hours. -/
theorem C6_claude_onQuotaHit_precedence (q : AuthQuotaState) (now : Int) :
    (∀ d, (ClaudeOnQuotaHit q (some d) now).CooldownUntil = now + d)
    ∧ (0 < q.LearnedCooldown →
        (ClaudeOnQuotaHit q none now).CooldownUntil = now + q.LearnedCooldown)
    ∧ (q.LearnedCooldown ≤ 0 →
        (ClaudeOnQuotaHit q none now).CooldownUntil = now + 5 * 3600) := by
  refine ⟨fun d => rfl, fun h => ?_, fun h => ?_⟩
  · simp [ClaudeOnQuotaHit, onQuotaHit, if_pos h]
  · simp [ClaudeOnQuotaHit, onQuotaHit, if_neg (not_lt.mpr h), claudeDefaultCooldown]

/-- Witness for C6: explicit 1800 s wins; with nothing learned the default is
five hours. -/
theorem C6_claude_onQuotaHit_precedence_witness :
    (ClaudeOnQuotaHit {} (some 1800) 100).CooldownUntil = 100 + 1800
    ∧ (ClaudeOnQuotaHit {} none 100).CooldownUntil = 100 + 5 * 3600 := by
  have h := C6_claude_onQuotaHit_precedence {} 100
  exact ⟨h.1 1800, h.2.2 (by norm_num)⟩

/-- C7: for every backoff level `k` (negative treated as 0) the quota cooldown
for a 429 with no explicit Retry-After is `2^k` seconds capped at 30 minutes;
the level resets on success; with cooldown globally disabled the returned
cooldown is zero. -/
theorem C7_exponential_backoff (k : Int) (q : AuthQuotaState) :
    (nextQuotaCooldown false k).1 = min ((2 : Int) ^ (max k 0).toNat) maxQuotaBackoff
    ∧ (nextQuotaCooldown true k).1 = 0
    ∧ (onSuccess q).ExponentialLevel = 0 := by
  refine ⟨?_, rfl, rfl⟩
  unfold nextQuotaCooldown
  simp only [Bool.false_eq_true, if_false]
  split <;> omega

/-! ## Claims about result marking -/

/-- C1 counterexample: a failed result with HTTP status 401 whose message
"Unauthorized" contains no revoked-token marker nevertheless disables the
auth (`Disabled = true`, `Status = Disabled`), as the circuit-breaker tests
require. -/
theorem C1_counterexample :
    containsRevokedMarker "Unauthorized" = false
    ∧ (MarkResult false { ID := "cb-401-registry", Provider := "claude" } {}
        { AuthID := "cb-401-registry", Provider := "claude", Model := "claude-sonnet-4",
          Success := false,
          Error := some { Code := "unauthorized", Message := "Unauthorized", HTTPStatus := 401 } }
        0).1.Disabled = true
    ∧ (MarkResult false { ID := "cb-401-registry", Provider := "claude" } {}
        { AuthID := "cb-401-registry", Provider := "claude", Model := "claude-sonnet-4",
          Success := false,
          Error := some { Code := "unauthorized", Message := "Unauthorized", HTTPStatus := 401 } }
        0).1.Status = .disabled := by
  refine ⟨by decide, rfl, rfl⟩

/-- C1 (amended): recording a failed result with HTTP status 401 or 403 marks
the auth `Disabled` with `Status = Disabled`, whether or not the message
contains a revoked-token marker. -/
theorem C1_amended_401_403_disable (cd : Bool) (a : Auth) (q : AuthQuotaState) (r : Result)
    (e : ProviderError) (now : Int) (hs : r.Success = false) (he : r.Error = some e)
    (h : e.HTTPStatus = 401 ∨ e.HTTPStatus = 403) :
    (MarkResult cd a q r now).1.Disabled = true
    ∧ (MarkResult cd a q r now).1.Status = .disabled := by
  have h429 : ¬e.HTTPStatus = 429 := by rcases h with h | h <;> omega
  have hcond : e.HTTPStatus = 401 ∨ e.HTTPStatus = 403 ∨ containsRevokedMarker e.Message := by
    tauto
  simp [MarkResult, hs, he, h429, applyAuthFailureState, if_pos hcond]

/-- Witness for the amended C1 at a concrete 403 result. -/
theorem C1_amended_401_403_disable_witness :
    (MarkResult false { ID := "cb-403-registry", Provider := "claude" } {}
        { AuthID := "cb-403-registry", Provider := "claude", Model := "claude-sonnet-4",
          Success := false,
          Error := some { Code := "forbidden", Message := "Forbidden - subscription expired",
                          HTTPStatus := 403 } }
        0).1.Disabled = true
    ∧ (MarkResult false { ID := "cb-403-registry", Provider := "claude" } {}
        { AuthID := "cb-403-registry", Provider := "claude", Model := "claude-sonnet-4",
          Success := false,
          Error := some { Code := "forbidden", Message := "Forbidden - subscription expired",
                          HTTPStatus := 403 } }
        0).1.Status = .disabled :=
  C1_amended_401_403_disable false _ {} _ _ 0 rfl rfl (Or.inr rfl)

/-- C2: recording a failed result with HTTP status 429 never disables the auth:
`Disabled` stays false, `Status` does not become `Disabled`, and instead a
cooldown is applied with `CooldownUntil` in the future. -/
theorem C2_429_never_disables (a : Auth) (q : AuthQuotaState) (r : Result) (e : ProviderError)
    (now : Int) (hd : a.Disabled = false) (hst : a.Status ≠ .disabled)
    (hs : r.Success = false) (he : r.Error = some e) (h429 : e.HTTPStatus = 429)
    (hra : ∀ d, e.RetryAfter = some d → 0 < d) :
    (MarkResult false a q r now).1.Disabled = false
    ∧ (MarkResult false a q r now).1.Status ≠ .disabled
    ∧ now < (MarkResult false a q r now).2.CooldownUntil := by
  have hmark : MarkResult false a q r now
      = (a, onQuotaHit (providerDefaultCooldown r.Provider false q.ExponentialLevel)
              q e.RetryAfter now) := by
    simp [MarkResult, hs, he, h429]
  have hdef : 0 < providerDefaultCooldown r.Provider false q.ExponentialLevel := by
    unfold providerDefaultCooldown nextQuotaCooldown claudeDefaultCooldown maxQuotaBackoff
    have hpow : 0 < (2 : Int) ^ (max q.ExponentialLevel 0).toNat :=
      pow_pos (by norm_num) _
    split
    · norm_num
    · simp only [Bool.false_eq_true, if_false]
      split <;> omega
  rw [hmark]
  refine ⟨hd, hst, ?_⟩
  unfold onQuotaHit
  cases hre : e.RetryAfter with
  | some d =>
      have := hra d hre
      simpa using this
  | none =>
      by_cases hl : 0 < q.LearnedCooldown
      · simp [if_pos hl]
        omega
      · simp [if_neg hl]
        omega

/-- Witness for C2 at a concrete 429 result with no Retry-After on a Claude
auth: the five-hour default cooldown is applied instead of disabling. -/
theorem C2_429_never_disables_witness :
    (MarkResult false { ID := "cb-429-registry", Provider := "claude" } {}
        { AuthID := "cb-429-registry", Provider := "claude", Model := "claude-sonnet-4",
          Success := false,
          Error := some { Code := "rate_limited", Message := "Rate limit exceeded",
                          HTTPStatus := 429 } }
        0).1.Disabled = false
    ∧ (MarkResult false { ID := "cb-429-registry", Provider := "claude" } {}
        { AuthID := "cb-429-registry", Provider := "claude", Model := "claude-sonnet-4",
          Success := false,
          Error := some { Code := "rate_limited", Message := "Rate limit exceeded",
                          HTTPStatus := 429 } }
        0).1.Status ≠ .disabled
    ∧ (0 : Int) < (MarkResult false { ID := "cb-429-registry", Provider := "claude" } {}
        { AuthID := "cb-429-registry", Provider := "claude", Model := "claude-sonnet-4",
          Success := false,
          Error := some { Code := "rate_limited", Message := "Rate limit exceeded",
                          HTTPStatus := 429 } }
        0).2.CooldownUntil :=
  C2_429_never_disables _ {} _ _ 0 rfl (by simp) rfl rfl rfl (fun d hd => by simp at hd)

/-! ## Claims about the selector -/

/-- An auth returned by `Pick` came from the pickable filter. -/
theorem pick_ok_mem_filter (candidates : List Auth) (model : String) (opts : PickOptions)
    (now : Int) (quota : String → Int) (sticky : Option String) (rotation : Nat) (a : Auth)
    (h : Pick candidates model opts now quota sticky rotation = .ok a) :
    a ∈ candidates.filter (isPickable quota model now) := by
  unfold Pick at h
  split at h
  · exact absurd h (by simp)
  · split at h
    case _ heq =>
      split at h <;> exact absurd h (by simp)
    case _ p ps heq =>
      rw [heq]
      split at h
      · obtain rfl : _ = a := by simpa using h
        exact List.get_mem _ _ _
      · split at h
        case _ b hfind =>
          obtain rfl : b = a := by simpa using h
          obtain ⟨id, hid, hf⟩ := Option.bind_eq_some.mp hfind
          exact List.mem_of_find?_eq_some hf
        case _ =>
          obtain rfl : _ = a := by simpa using h
          exact List.get_mem _ _ _

/-- A pickable auth satisfies the §3 pickability conjunction. -/
theorem isPickable_true_spec (quota : String → Int) (model : String) (now : Int) (a : Auth)
    (h : isPickable quota model now a = true) :
    a.Disabled = false ∧ a.Status ≠ .disabled
    ∧ ¬(a.Unavailable = true ∧ now < a.NextRetryAfter)
    ∧ (∀ ms, findModelState a.ModelStates model = some ms →
        ms.Status ≠ .disabled ∧ ¬(ms.Unavailable = true ∧ now < ms.NextRetryAfter))
    ∧ ¬(now < quota a.ID) := by
  have hb : (isAuthBlockedForModel (some a) model now (quota a.ID)).1 = false := by
    by_contra hcon
    have : (isAuthBlockedForModel (some a) model now (quota a.ID)).1 = true := by
      revert hcon
      cases (isAuthBlockedForModel (some a) model now (quota a.ID)).1 <;> simp
    simp [isPickable, this] at h
  unfold isAuthBlockedForModel at hb
  split at hb
  next => simp at hb
  next a2 ha2 =>
    obtain rfl : a = a2 := by injection ha2
    split at hb
    next h1 => simp at hb
    next h1 =>
      have hd2 : a.Disabled = false := by
        cases hdc : a.Disabled
        · rfl
        · exact absurd (Or.inl hdc) h1
      have hst : a.Status ≠ .disabled := fun hcon => h1 (Or.inr hcon)
      split at hb
      next ms hms =>
        split at hb
        next => simp at hb
        next h2 =>
          split at hb
          next => simp at hb
          next h3 =>
            split at hb
            next => simp at hb
            next h4 =>
              split at hb
              next => simp at hb
              next h5 =>
                refine ⟨hd2, hst, h4, ?_, h5⟩
                intro ms2 hms2
                rw [hms] at hms2
                obtain rfl : ms = ms2 := by injection hms2
                exact ⟨h2, h3⟩
      next hms =>
        split at hb
        next => simp at hb
        next h2 =>
          split at hb
          next => simp at hb
          next h3 =>
            refine ⟨hd2, hst, h2, ?_, h3⟩
            intro ms2 hms2
            rw [hms] at hms2
            exact absurd hms2 (by simp)

/-- C3: whenever `Pick` returns an auth, that auth is pickable for
`(model, now)` per §3: not disabled (flag or status), not under an auth-level
or model-level soft cooldown still in the future, and not under a quota
cooldown extending past `now`. -/
theorem C3_pick_returns_pickable (candidates : List Auth) (model : String) (opts : PickOptions)
    (now : Int) (quota : String → Int) (sticky : Option String) (rotation : Nat) (a : Auth)
    (h : Pick candidates model opts now quota sticky rotation = .ok a) :
    a.Disabled = false ∧ a.Status ≠ .disabled
    ∧ ¬(a.Unavailable = true ∧ now < a.NextRetryAfter)
    ∧ (∀ ms, findModelState a.ModelStates model = some ms →
        ms.Status ≠ .disabled ∧ ¬(ms.Unavailable = true ∧ now < ms.NextRetryAfter))
    ∧ ¬(now < quota a.ID) :=
  isPickable_true_spec quota model now a
    (List.of_mem_filter
      (pick_ok_mem_filter candidates model opts now quota sticky rotation a h))

/-- Witness for C3: `Pick` over a disabled auth and an active one returns the
active one, which satisfies every pickability conjunct. -/
theorem C3_pick_returns_pickable_witness :
    ({ ID := "active-auth", Provider := "claude" } : Auth).Disabled = false
    ∧ ({ ID := "active-auth", Provider := "claude" } : Auth).Status ≠ .disabled
    ∧ ¬(({ ID := "active-auth", Provider := "claude" } : Auth).Unavailable = true
        ∧ (0 : Int) < ({ ID := "active-auth", Provider := "claude" } : Auth).NextRetryAfter)
    ∧ (∀ ms, findModelState ({ ID := "active-auth", Provider := "claude" } : Auth).ModelStates
          "claude-sonnet-4" = some ms →
        ms.Status ≠ .disabled ∧ ¬(ms.Unavailable = true ∧ (0 : Int) < ms.NextRetryAfter))
    ∧ ¬((0 : Int) < (fun _ => (0 : Int)) ({ ID := "active-auth", Provider := "claude" } : Auth).ID) :=
  C3_pick_returns_pickable
    [{ ID := "disabled-auth", Provider := "claude", Disabled := true, Status := .disabled },
     { ID := "active-auth", Provider := "claude" }]
    "claude-sonnet-4" {} 0 (fun _ => 0) none 0 _ rfl

/-- A candidate blocked for cooldown has the block triple
`(true, cooldown, wait)`. -/
theorem blockedCooldownWait_some (quota : String → Int) (model : String) (now : Int)
    (a : Auth) (w : Int) (h : blockedCooldownWait quota model now a = some w) :
    isAuthBlockedForModel (some a) model now (quota a.ID) = (true, .cooldown, w) := by
  unfold blockedCooldownWait at h
  split at h
  next heq =>
    obtain rfl : _ = w := by injection h
    exact heq
  next => exact absurd h (by simp)

/-- A nonempty wait list has a minimum. -/
theorem minWait_of_ne_nil (l : List Int) (h : l ≠ []) : ∃ w, minWait l = some w := by
  cases l with
  | nil => exact absurd rfl h
  | cons w ws =>
      unfold minWait
      cases minWait ws <;> exact ⟨_, rfl⟩

/-- C4: when every candidate is filtered out because of cooldown (model-level
or auth-level), `Pick` returns the `model_cooldown_error`, whose HTTP status is
429 and whose Retry-After value is the minimum remaining cooldown wait among
the filtered candidates. -/
theorem C4_all_cooldown_pick_429 (candidates : List Auth) (model : String)
    (opts : PickOptions) (now : Int) (quota : String → Int) (sticky : Option String)
    (rotation : Nat) (hne : candidates ≠ [])
    (hall : ∀ a ∈ candidates, ∃ w, blockedCooldownWait quota model now a = some w) :
    ∃ w, minWait (candidates.filterMap (blockedCooldownWait quota model now)) = some w
      ∧ Pick candidates model opts now quota sticky rotation
          = .error (.modelCooldown model w)
      ∧ PickError.StatusCode (.modelCooldown model w) = 429
      ∧ PickError.RetryAfter (.modelCooldown model w) = w := by
  have hfil : candidates.filter (isPickable quota model now) = [] := by
    rw [List.filter_eq_nil_iff]
    intro a ha
    obtain ⟨w, hw⟩ := hall a ha
    have hblocked := blockedCooldownWait_some quota model now a w hw
    simp [isPickable, hblocked]
  have hfm : candidates.filterMap (blockedCooldownWait quota model now) ≠ [] := by
    cases candidates with
    | nil => exact absurd rfl hne
    | cons c cs =>
        obtain ⟨w, hw⟩ := hall c (List.mem_cons_self _ _)
        simp [List.filterMap_cons, hw]
  obtain ⟨w, hw⟩ := minWait_of_ne_nil _ hfm
  refine ⟨w, hw, ?_, rfl, rfl⟩
  unfold Pick
  rw [if_neg (by simpa [List.isEmpty_iff] using hne)]
  rw [hfil, hw]

/-- A gemini auth cooling on "model" until t = 4600, for the C4 witness. -/
def coolingAuthA : Auth :=
  { ID := "auth1", Provider := "gemini",
    ModelStates := [("model", { Unavailable := true, NextRetryAfter := 4600,
                                Quota := { Exceeded := true, NextRecoverAt := 4600 } })] }

/-- A gemini auth cooling on "model" until t = 2800, for the C4 witness. -/
def coolingAuthB : Auth :=
  { ID := "auth2", Provider := "gemini",
    ModelStates := [("model", { Unavailable := true, NextRetryAfter := 2800,
                                Quota := { Exceeded := true, NextRecoverAt := 2800 } })] }

/-- Witness for C4: with both candidates cooling on the model at t = 1000,
`Pick` returns the 429-shaped cooldown error carrying the smaller remaining
wait (1800 s). -/
theorem C4_all_cooldown_pick_429_witness :
    Pick [coolingAuthA, coolingAuthB] "model" {} 1000 (fun _ => 0) none 0
        = .error (.modelCooldown "model" 1800)
    ∧ PickError.StatusCode (.modelCooldown "model" 1800) = 429 := by
  obtain ⟨w, hmin, hpick, hsc, _⟩ :=
    C4_all_cooldown_pick_429 [coolingAuthA, coolingAuthB] "model" {} 1000
      (fun _ => 0) none 0 (by simp)
      (by
        intro a ha
        rcases (by simpa using ha : a = coolingAuthA ∨ a = coolingAuthB) with rfl | rfl
        · exact ⟨3600, rfl⟩
        · exact ⟨1800, rfl⟩)
  have hw : w = 1800 := by
    have h2 : minWait ([coolingAuthA, coolingAuthB].filterMap
        (blockedCooldownWait (fun _ => 0) "model" 1000)) = some 1800 := rfl
    rw [h2] at hmin
    injection hmin with hval
    exact hval.symm
  rw [hw] at hpick
  exact ⟨hpick, hsc⟩

/-! ## Claim about the token refresher -/

/-- C8: `shouldRefresh` skips a disabled auth and one whose `NextRefreshAfter`
is still in the future; otherwise, for an auth with no explicit refresh
interval and no runtime evaluator whose provider has a registered positive
refresh lead, it refreshes exactly when the declared expiry satisfies
`ExpiresAt − now ≤ lead`, and, when no expiry is recorded, whenever
`now − lastRefresh ≥ lead`. -/
theorem C8_shouldRefresh_rules (leads : String → Option Int) (a : Auth) (now wall lead : Int) :
    (a.Disabled = true → shouldRefresh leads (some a) now wall = false)
    ∧ (a.NextRefreshAfter ≠ 0 → now < a.NextRefreshAfter →
        shouldRefresh leads (some a) now wall = false)
    ∧ (a.Disabled = false →
       (a.NextRefreshAfter = 0 ∨ a.NextRefreshAfter ≤ now) →
       a.Runtime = none →
       authPreferredInterval (some a) = 0 →
       ProviderRefreshLead leads a.Provider = some lead →
       0 < lead →
       wall = now →
       ((a.HasExpirationTime = true → a.ExpirationTime ≠ 0 →
           (shouldRefresh leads (some a) now wall = true ↔ a.ExpirationTime - now ≤ lead))
        ∧ (a.HasExpirationTime = false →
             lead ≤ now - effectiveLastRefresh a →
             shouldRefresh leads (some a) now wall = true))) := by
  refine ⟨?_, ?_, ?_⟩
  · intro hd
    simp [shouldRefresh, hd]
  · intro hNz hlt
    simp only [shouldRefresh]
    by_cases hd : a.Disabled = true
    · rw [if_pos hd]
    · rw [if_neg hd, if_pos ⟨hNz, hlt⟩]
  · intro hd hnra hrt hint hlead hpos hwall
    have hdneg : ¬(a.Disabled = true) := by simp [hd]
    have hnext : ¬(a.NextRefreshAfter ≠ 0 ∧ now < a.NextRefreshAfter) := by
      rcases hnra with h | h
      · exact fun hc => hc.1 h
      · exact fun hc => absurd hc.2 (not_lt.mpr h)
    have hle : ¬lead ≤ 0 := not_le.mpr hpos
    constructor
    · intro hhe hez
      simp only [shouldRefresh]
      rw [if_neg hdneg, if_neg hnext, hrt]
      simp only [hint, lt_self_iff_false, if_false, hlead]
      rw [if_neg hle, if_pos ⟨hhe, hez⟩, hwall]
      simp
    · intro hhe hlast
      simp only [shouldRefresh]
      rw [if_neg hdneg, if_neg hnext, hrt]
      simp only [hint, lt_self_iff_false, if_false, hlead]
      rw [if_neg hle, if_neg (by simp [hhe])]
      show (if effectiveLastRefresh a ≠ 0 then
              decide (lead ≤ now - effectiveLastRefresh a)
            else true) = true
      by_cases hz : effectiveLastRefresh a = 0
      · rw [if_neg (by simp [hz])]
      · rw [if_pos hz]
        simpa using hlast

/-- Witness for C8: a provider with a four-hour lead and a token expiring in
two hours is refreshed. -/
theorem C8_shouldRefresh_rules_witness :
    shouldRefresh (fun s => if s = "testprovider" then some 14400 else none)
      (some { ID := "test-auth", Provider := "testprovider",
              HasExpirationTime := true, ExpirationTime := 1007200 })
      1000000 1000000 = true := by
  have h := C8_shouldRefresh_rules
    (fun s => if s = "testprovider" then some 14400 else none)
    { ID := "test-auth", Provider := "testprovider",
      HasExpirationTime := true, ExpirationTime := 1007200 }
    1000000 1000000 14400
  exact ((h.2.2 rfl (Or.inl rfl) rfl rfl (by decide) (by norm_num) rfl).1 rfl
    (by norm_num)).mpr (by norm_num)

/-! ## Report monotonicity of the sanitizers -/

/-- The untyped sanitizers only append to the report's entry list. -/
theorem sanitizeAny_entries_extend_aux (n : Nat) :
    (∀ (value : JValue), sizeOf value ≤ n → ∀ (path : String) (rep : ValidationReport),
        ∃ l, (sanitizeAnyValue value path rep).2.Entries = rep.Entries ++ l)
    ∧ (∀ (obj : List (String × JValue)), sizeOf obj ≤ n →
        ∀ (path : String) (rep : ValidationReport),
        ∃ l, (sanitizeAnyObject obj path rep).2.Entries = rep.Entries ++ l)
    ∧ (∀ (arr : List JValue), sizeOf arr ≤ n →
        ∀ (path : String) (rep : ValidationReport) (i : Nat),
        ∃ l, (sanitizeAnyArray arr path rep i).2.Entries = rep.Entries ++ l) := by
  induction n using Nat.strong_induction_on with
  | _ n ih =>
    refine ⟨?_, ?_, ?_⟩
    · intro value hsz path rep
      match value with
      | .null => exact ⟨[], by simp [sanitizeAnyValue]⟩
      | .bool b => exact ⟨[], by simp [sanitizeAnyValue]⟩
      | .num m => exact ⟨[], by simp [sanitizeAnyValue]⟩
      | .str s =>
          by_cases hs : s = "[undefined]" ∨ s = "undefined"
          · exact ⟨[{ Path := path, Action := .removed, Reason := "undefined value" }],
              by simp [sanitizeAnyValue, hs, ValidationReport.AddEntry]⟩
          · exact ⟨[], by simp [sanitizeAnyValue, hs]⟩
      | .obj fields =>
          have hlt : sizeOf fields < n := by
            have : sizeOf fields < sizeOf (JValue.obj fields) := by simp
            omega
          obtain ⟨l, hl⟩ := ((ih (sizeOf fields) hlt).2.1) fields le_rfl path rep
          exact ⟨l, by simp [sanitizeAnyValue]; exact hl⟩
      | .arr items =>
          have hlt : sizeOf items < n := by
            have : sizeOf items < sizeOf (JValue.arr items) := by simp
            omega
          obtain ⟨l, hl⟩ := ((ih (sizeOf items) hlt).2.2) items le_rfl path rep 0
          exact ⟨l, by simp [sanitizeAnyValue]; exact hl⟩
    · intro obj hsz path rep
      match obj with
      | [] => exact ⟨[], by simp [sanitizeAnyObject]⟩
      | (k, v) :: rest =>
          have hvlt : sizeOf v < n := by
            have : sizeOf v < sizeOf ((k, v) :: rest) := by simp; omega
            omega
          have hrlt : sizeOf rest < n := by
            have : sizeOf rest < sizeOf ((k, v) :: rest) := by simp
            omega
          by_cases hn : v.isNull = true
          · obtain ⟨l, hl⟩ := ((ih (sizeOf rest) hrlt).2.1) rest le_rfl path
              (rep.AddEntry (joinPath path k) .removed "null value in untyped object")
            refine ⟨{ Path := joinPath path k, Action := .removed,
                      Reason := "null value in untyped object" } :: l, ?_⟩
            rw [show sanitizeAnyObject ((k, v) :: rest) path rep
                = sanitizeAnyObject rest path
                    (rep.AddEntry (joinPath path k) .removed "null value in untyped object")
              from by simp [sanitizeAnyObject, hn]]
            rw [hl]
            simp [ValidationReport.AddEntry]
          · obtain ⟨l1, hl1⟩ := ((ih (sizeOf v) hvlt).1) v le_rfl (joinPath path k) rep
            obtain ⟨l2, hl2⟩ := ((ih (sizeOf rest) hrlt).2.1) rest le_rfl path
              (sanitizeAnyValue v (joinPath path k) rep).2
            refine ⟨l1 ++ l2, ?_⟩
            rw [show (sanitizeAnyObject ((k, v) :: rest) path rep).2
                = (sanitizeAnyObject rest path
                    (sanitizeAnyValue v (joinPath path k) rep).2).2
              from by simp [sanitizeAnyObject, hn]]
            rw [hl2, hl1]
            simp
    · intro arr hsz path rep i
      match arr with
      | [] => exact ⟨[], by simp [sanitizeAnyArray]⟩
      | item :: rest =>
          have hvlt : sizeOf item < n := by
            have : sizeOf item < sizeOf (item :: rest) := by simp; omega
            omega
          have hrlt : sizeOf rest < n := by
            have : sizeOf rest < sizeOf (item :: rest) := by simp
            omega
          by_cases hn : item.isNull = true
          · obtain ⟨l, hl⟩ := ((ih (sizeOf rest) hrlt).2.2) rest le_rfl path rep (i + 1)
            exact ⟨l, by rw [show sanitizeAnyArray (item :: rest) path rep i
                = sanitizeAnyArray rest path rep (i + 1)
              from by simp [sanitizeAnyArray, hn]]; exact hl⟩
          · obtain ⟨l1, hl1⟩ := ((ih (sizeOf item) hvlt).1) item le_rfl
              (path ++ "[" ++ itoaGo i ++ "]") rep
            obtain ⟨l2, hl2⟩ := ((ih (sizeOf rest) hrlt).2.2) rest le_rfl path
              (sanitizeAnyValue item (path ++ "[" ++ itoaGo i ++ "]") rep).2 (i + 1)
            refine ⟨l1 ++ l2, ?_⟩
            rw [show (sanitizeAnyArray (item :: rest) path rep i).2
                = (sanitizeAnyArray rest path
                    (sanitizeAnyValue item (path ++ "[" ++ itoaGo i ++ "]") rep).2 (i + 1)).2
              from by simp [sanitizeAnyArray, hn]]
            rw [hl2, hl1]
            simp

/-- `sanitizeAnyValue` only appends to the report's entry list. -/
theorem sanitizeAnyValue_entries_extend (value : JValue) (path : String)
    (rep : ValidationReport) :
    ∃ l, (sanitizeAnyValue value path rep).2.Entries = rep.Entries ++ l :=
  (sanitizeAny_entries_extend_aux (sizeOf value)).1 value le_rfl path rep

/-- The typed sanitizers only append to the report's entry list. -/
theorem sanitize_entries_extend_aux (n : Nat) :
    (∀ (data : List (String × JValue)), sizeOf data ≤ n →
        ∀ (allowed : List (String × FieldSpec)) (path : String) (rep : ValidationReport),
        ∃ l, (sanitizeObject data allowed path rep).2.Entries = rep.Entries ++ l)
    ∧ (∀ (value : JValue), sizeOf value ≤ n →
        ∀ (spec : FieldSpec) (path : String) (rep : ValidationReport),
        ∃ l, (sanitizeValue value spec path rep).2.Entries = rep.Entries ++ l)
    ∧ (∀ (arr : List JValue), sizeOf arr ≤ n →
        ∀ (ispec : Option FieldSpec) (path : String) (rep : ValidationReport) (i : Nat),
        ∃ l, (sanitizeArray arr ispec path rep i).2.Entries = rep.Entries ++ l) := by
  induction n using Nat.strong_induction_on with
  | _ n ih =>
    refine ⟨?_, ?_, ?_⟩
    · intro data hsz allowed path rep
      match data with
      | [] => exact ⟨[], by simp [sanitizeObject]⟩
      | (key, value) :: rest =>
          have hvlt : sizeOf value < n := by
            have : sizeOf value < sizeOf ((key, value) :: rest) := by simp; omega
            omega
          have hrlt : sizeOf rest < n := by
            have : sizeOf rest < sizeOf ((key, value) :: rest) := by simp
            omega
          match hlk : lookupField allowed key with
          | none =>
              obtain ⟨l, hl⟩ := (ih (sizeOf rest) hrlt).1 rest le_rfl allowed path
                (rep.AddEntry (joinPath path key) .removed "not in whitelist")
              refine ⟨{ Path := joinPath path key, Action := .removed,
                        Reason := "not in whitelist" } :: l, ?_⟩
              rw [show sanitizeObject ((key, value) :: rest) allowed path rep
                  = sanitizeObject rest allowed path
                      (rep.AddEntry (joinPath path key) .removed "not in whitelist")
                from by simp [sanitizeObject, hlk]]
              rw [hl]
              simp [ValidationReport.AddEntry]
          | some spec =>
              by_cases hnull : value.isNull = true
              · by_cases hnb : spec.Nullable = true
                · obtain ⟨l, hl⟩ := (ih (sizeOf rest) hrlt).1 rest le_rfl allowed path rep
                  refine ⟨l, ?_⟩
                  rw [show (sanitizeObject ((key, value) :: rest) allowed path rep).2
                      = (sanitizeObject rest allowed path rep).2
                    from by simp [sanitizeObject, hlk, hnull, hnb]]
                  exact hl
                · obtain ⟨l, hl⟩ := (ih (sizeOf rest) hrlt).1 rest le_rfl allowed path
                    (rep.AddEntry (joinPath path key) .removed "null not allowed")
                  refine ⟨{ Path := joinPath path key, Action := .removed,
                            Reason := "null not allowed" } :: l, ?_⟩
                  rw [show sanitizeObject ((key, value) :: rest) allowed path rep
                      = sanitizeObject rest allowed path
                          (rep.AddEntry (joinPath path key) .removed "null not allowed")
                    from by simp [sanitizeObject, hlk, hnull, hnb]]
                  rw [hl]
                  simp [ValidationReport.AddEntry]
              · obtain ⟨l1, hl1⟩ := (ih (sizeOf value) hvlt).2.1 value le_rfl spec
                  (joinPath path key) rep
                obtain ⟨l2, hl2⟩ := (ih (sizeOf rest) hrlt).1 rest le_rfl allowed path
                  (sanitizeValue value spec (joinPath path key) rep).2
                refine ⟨l1 ++ l2, ?_⟩
                rw [show (sanitizeObject ((key, value) :: rest) allowed path rep).2
                    = (sanitizeObject rest allowed path
                        (sanitizeValue value spec (joinPath path key) rep).2).2
                  from by simp [sanitizeObject, hlk, hnull]]
                rw [hl2, hl1]
                simp
    · intro value hsz spec path rep
      match value with
      | .null => exact ⟨[], by simp [sanitizeValue]⟩
      | .bool b =>
          match hft : spec.ftype with
          | .any =>
              obtain ⟨l, hl⟩ := sanitizeAnyValue_entries_extend (.bool b) path rep
              refine ⟨l, ?_⟩
              rw [show sanitizeValue (.bool b) spec path rep = sanitizeAnyValue (.bool b) path rep
                from by simp [sanitizeValue, hft]]
              exact hl
          | .object => exact ⟨[{ Path := path, Action := .removed, Reason := "expected object" }],
              by simp [sanitizeValue, hft, ValidationReport.AddEntry]⟩
          | .array => exact ⟨[{ Path := path, Action := .removed, Reason := "expected array" }],
              by simp [sanitizeValue, hft, ValidationReport.AddEntry]⟩
          | .string => exact ⟨[{ Path := path, Action := .removed, Reason := "expected string" }],
              by simp [sanitizeValue, hft, ValidationReport.AddEntry]⟩
          | .number => exact ⟨[{ Path := path, Action := .removed, Reason := "expected number" }],
              by simp [sanitizeValue, hft, ValidationReport.AddEntry]⟩
          | .boolean => exact ⟨[], by simp [sanitizeValue, hft]⟩
      | .num m =>
          match hft : spec.ftype with
          | .any =>
              obtain ⟨l, hl⟩ := sanitizeAnyValue_entries_extend (.num m) path rep
              refine ⟨l, ?_⟩
              rw [show sanitizeValue (.num m) spec path rep = sanitizeAnyValue (.num m) path rep
                from by simp [sanitizeValue, hft]]
              exact hl
          | .object => exact ⟨[{ Path := path, Action := .removed, Reason := "expected object" }],
              by simp [sanitizeValue, hft, ValidationReport.AddEntry]⟩
          | .array => exact ⟨[{ Path := path, Action := .removed, Reason := "expected array" }],
              by simp [sanitizeValue, hft, ValidationReport.AddEntry]⟩
          | .string => exact ⟨[{ Path := path, Action := .removed, Reason := "expected string" }],
              by simp [sanitizeValue, hft, ValidationReport.AddEntry]⟩
          | .number => exact ⟨[], by simp [sanitizeValue, hft]⟩
          | .boolean => exact ⟨[{ Path := path, Action := .removed, Reason := "expected boolean" }],
              by simp [sanitizeValue, hft, ValidationReport.AddEntry]⟩
      | .str s =>
          match hft : spec.ftype with
          | .any =>
              obtain ⟨l, hl⟩ := sanitizeAnyValue_entries_extend (.str s) path rep
              refine ⟨l, ?_⟩
              rw [show sanitizeValue (.str s) spec path rep = sanitizeAnyValue (.str s) path rep
                from by simp [sanitizeValue, hft]]
              exact hl
          | .object => exact ⟨[{ Path := path, Action := .removed, Reason := "expected object" }],
              by simp [sanitizeValue, hft, ValidationReport.AddEntry]⟩
          | .array => exact ⟨[{ Path := path, Action := .removed, Reason := "expected array" }],
              by simp [sanitizeValue, hft, ValidationReport.AddEntry]⟩
          | .string => exact ⟨[], by simp [sanitizeValue, hft]⟩
          | .number => exact ⟨[{ Path := path, Action := .removed, Reason := "expected number" }],
              by simp [sanitizeValue, hft, ValidationReport.AddEntry]⟩
          | .boolean => exact ⟨[{ Path := path, Action := .removed, Reason := "expected boolean" }],
              by simp [sanitizeValue, hft, ValidationReport.AddEntry]⟩
      | .arr items =>
          match hft : spec.ftype with
          | .any =>
              obtain ⟨l, hl⟩ := sanitizeAnyValue_entries_extend (.arr items) path rep
              refine ⟨l, ?_⟩
              rw [show sanitizeValue (.arr items) spec path rep = sanitizeAnyValue (.arr items) path rep
                from by simp [sanitizeValue, hft]]
              exact hl
          | .object => exact ⟨[{ Path := path, Action := .removed, Reason := "expected object" }],
              by simp [sanitizeValue, hft, ValidationReport.AddEntry]⟩
          | .array =>
              have hlt : sizeOf items < n := by
                have : sizeOf items < sizeOf (JValue.arr items) := by simp
                omega
              obtain ⟨l, hl⟩ := (ih (sizeOf items) hlt).2.2 items le_rfl spec.Items path rep 0
              refine ⟨l, ?_⟩
              rw [show (sanitizeValue (.arr items) spec path rep).2
                  = (sanitizeArray items spec.Items path rep 0).2
                from by simp [sanitizeValue, hft]]
              exact hl
          | .string => exact ⟨[{ Path := path, Action := .removed, Reason := "expected string" }],
              by simp [sanitizeValue, hft, ValidationReport.AddEntry]⟩
          | .number => exact ⟨[{ Path := path, Action := .removed, Reason := "expected number" }],
              by simp [sanitizeValue, hft, ValidationReport.AddEntry]⟩
          | .boolean => exact ⟨[{ Path := path, Action := .removed, Reason := "expected boolean" }],
              by simp [sanitizeValue, hft, ValidationReport.AddEntry]⟩
      | .obj fields =>
          match hft : spec.ftype with
          | .any =>
              obtain ⟨l, hl⟩ := sanitizeAnyValue_entries_extend (.obj fields) path rep
              refine ⟨l, ?_⟩
              rw [show sanitizeValue (.obj fields) spec path rep = sanitizeAnyValue (.obj fields) path rep
                from by simp [sanitizeValue, hft]]
              exact hl
          | .object =>
              match hch : spec.Children with
              | some children =>
                  have hlt : sizeOf fields < n := by
                    have : sizeOf fields < sizeOf (JValue.obj fields) := by simp
                    omega
                  obtain ⟨l, hl⟩ := (ih (sizeOf fields) hlt).1 fields le_rfl children path rep
                  refine ⟨l, ?_⟩
                  rw [show (sanitizeValue (.obj fields) spec path rep).2
                      = (sanitizeObject fields children path rep).2
                    from by simp [sanitizeValue, hft, hch]]
                  exact hl
              | none =>
                  obtain ⟨l, hl⟩ := sanitizeAnyValue_entries_extend (.obj fields) path rep
                  refine ⟨l, ?_⟩
                  rw [show sanitizeValue (.obj fields) spec path rep
                      = sanitizeAnyValue (.obj fields) path rep
                    from by simp [sanitizeValue, hft, hch]]
                  exact hl
          | .array => exact ⟨[{ Path := path, Action := .removed, Reason := "expected array" }],
              by simp [sanitizeValue, hft, ValidationReport.AddEntry]⟩
          | .string => exact ⟨[{ Path := path, Action := .removed, Reason := "expected string" }],
              by simp [sanitizeValue, hft, ValidationReport.AddEntry]⟩
          | .number => exact ⟨[{ Path := path, Action := .removed, Reason := "expected number" }],
              by simp [sanitizeValue, hft, ValidationReport.AddEntry]⟩
          | .boolean => exact ⟨[{ Path := path, Action := .removed, Reason := "expected boolean" }],
              by simp [sanitizeValue, hft, ValidationReport.AddEntry]⟩
    · intro arr hsz ispec path rep i
      match arr with
      | [] => exact ⟨[], by simp [sanitizeArray]⟩
      | item :: rest =>
          have hvlt : sizeOf item < n := by
            have : sizeOf item < sizeOf (item :: rest) := by simp; omega
            omega
          have hrlt : sizeOf rest < n := by
            have : sizeOf rest < sizeOf (item :: rest) := by simp
            omega
          by_cases hn : item.isNull = true
          · obtain ⟨l, hl⟩ := (ih (sizeOf rest) hrlt).2.2 rest le_rfl ispec path rep (i + 1)
            refine ⟨l, ?_⟩
            rw [show sanitizeArray (item :: rest) ispec path rep i
                = sanitizeArray rest ispec path rep (i + 1)
              from by
                conv_lhs => rw [sanitizeArray.eq_def]
                simp [hn]]
            exact hl
          · match ispec with
            | some s =>
                obtain ⟨l1, hl1⟩ := (ih (sizeOf item) hvlt).2.1 item le_rfl s
                  (path ++ "[" ++ itoaGo i ++ "]") rep
                obtain ⟨l2, hl2⟩ := (ih (sizeOf rest) hrlt).2.2 rest le_rfl (some s) path
                  (sanitizeValue item s (path ++ "[" ++ itoaGo i ++ "]") rep).2 (i + 1)
                refine ⟨l1 ++ l2, ?_⟩
                rw [show (sanitizeArray (item :: rest) (some s) path rep i).2
                    = (sanitizeArray rest (some s) path
                        (sanitizeValue item s (path ++ "[" ++ itoaGo i ++ "]") rep).2 (i + 1)).2
                  from by
                    conv_lhs => rw [sanitizeArray.eq_def]
                    simp [hn]]
                rw [hl2, hl1]
                simp
            | none =>
                obtain ⟨l1, hl1⟩ := sanitizeAnyValue_entries_extend item
                  (path ++ "[" ++ itoaGo i ++ "]") rep
                obtain ⟨l2, hl2⟩ := (ih (sizeOf rest) hrlt).2.2 rest le_rfl none path
                  (sanitizeAnyValue item (path ++ "[" ++ itoaGo i ++ "]") rep).2 (i + 1)
                refine ⟨l1 ++ l2, ?_⟩
                rw [show (sanitizeArray (item :: rest) none path rep i).2
                    = (sanitizeArray rest none path
                        (sanitizeAnyValue item (path ++ "[" ++ itoaGo i ++ "]") rep).2 (i + 1)).2
                  from by
                    conv_lhs => rw [sanitizeArray.eq_def]
                    simp [hn]]
                rw [hl2, hl1]
                simp

/-- `sanitizeObject` only appends to the report's entry list. -/
theorem sanitizeObject_entries_extend (data : List (String × JValue))
    (allowed : List (String × FieldSpec)) (path : String) (rep : ValidationReport) :
    ∃ l, (sanitizeObject data allowed path rep).2.Entries = rep.Entries ++ l :=
  (sanitize_entries_extend_aux (sizeOf data)).1 data le_rfl allowed path rep

/-- Every key of a sanitized object comes from the input object. -/
theorem sanitizeObject_keys_subset (data : List (String × JValue))
    (allowed : List (String × FieldSpec)) (path : String) (rep : ValidationReport) :
    ∀ p ∈ (sanitizeObject data allowed path rep).1, p.1 ∈ data.map Prod.fst := by
  induction data generalizing rep with
  | nil => intro p hp; simp [sanitizeObject] at hp
  | cons head rest ihd =>
      obtain ⟨key, value⟩ := head
      intro p hp
      match hlk : lookupField allowed key with
      | none =>
          rw [show sanitizeObject ((key, value) :: rest) allowed path rep
              = sanitizeObject rest allowed path
                  (rep.AddEntry (joinPath path key) .removed "not in whitelist")
            from by simp [sanitizeObject, hlk]] at hp
          have := ihd _ p hp
          simp only [List.map_cons]
          exact List.mem_cons_of_mem _ this
      | some spec =>
          by_cases hnull : value.isNull = true
          · by_cases hnb : spec.Nullable = true
            · rw [show (sanitizeObject ((key, value) :: rest) allowed path rep).1
                  = (key, JValue.null) :: (sanitizeObject rest allowed path rep).1
                from by simp [sanitizeObject, hlk, hnull, hnb]] at hp
              rcases List.mem_cons.mp hp with rfl | hp2
              · simp
              · have := ihd _ p hp2
                simp only [List.map_cons]
                exact List.mem_cons_of_mem _ this
            · rw [show sanitizeObject ((key, value) :: rest) allowed path rep
                  = sanitizeObject rest allowed path
                      (rep.AddEntry (joinPath path key) .removed "null not allowed")
                from by simp [sanitizeObject, hlk, hnull, hnb]] at hp
              have := ihd _ p hp
              simp only [List.map_cons]
              exact List.mem_cons_of_mem _ this
          · rcases hsv : (sanitizeValue value spec (joinPath path key) rep).1 with _ | sv
            · rw [show (sanitizeObject ((key, value) :: rest) allowed path rep).1
                  = (sanitizeObject rest allowed path
                      (sanitizeValue value spec (joinPath path key) rep).2).1
                from by simp [sanitizeObject, hlk, hnull, hsv]] at hp
              have := ihd _ p hp
              simp only [List.map_cons]
              exact List.mem_cons_of_mem _ this
            · rw [show (sanitizeObject ((key, value) :: rest) allowed path rep).1
                  = (key, sv) :: (sanitizeObject rest allowed path
                      (sanitizeValue value spec (joinPath path key) rep).2).1
                from by simp [sanitizeObject, hlk, hnull, hsv]] at hp
              rcases List.mem_cons.mp hp with rfl | hp2
              · simp
              · have := ihd _ p hp2
                simp only [List.map_cons]
                exact List.mem_cons_of_mem _ this

/-- One step of `sanitizeObject`: the head pair contributes at most one pair
(with its own key), and the rest is sanitized at some intermediate report
that also carries the step's entries. -/
theorem sanitizeObject_cons_shape (k0 : String) (v0 : JValue)
    (rest : List (String × JValue)) (allowed : List (String × FieldSpec))
    (path : String) (rep : ValidationReport) :
    ∃ (rep2 : ValidationReport) (mh : Option JValue),
      (sanitizeObject ((k0, v0) :: rest) allowed path rep).1
        = (match mh with
           | some hv => (k0, hv) :: (sanitizeObject rest allowed path rep2).1
           | none => (sanitizeObject rest allowed path rep2).1)
      ∧ (sanitizeObject ((k0, v0) :: rest) allowed path rep).2
        = (sanitizeObject rest allowed path rep2).2 := by
  match hlk : lookupField allowed k0 with
  | none =>
      refine ⟨rep.AddEntry (joinPath path k0) .removed "not in whitelist", none, ?_, ?_⟩ <;>
        simp [sanitizeObject, hlk]
  | some spec =>
      by_cases hnull : v0.isNull = true
      · by_cases hnb : spec.Nullable = true
        · refine ⟨rep, some .null, ?_, ?_⟩ <;> simp [sanitizeObject, hlk, hnull, hnb]
        · refine ⟨rep.AddEntry (joinPath path k0) .removed "null not allowed", none, ?_, ?_⟩ <;>
            simp [sanitizeObject, hlk, hnull, hnb]
      · refine ⟨(sanitizeValue v0 spec (joinPath path k0) rep).2,
          (sanitizeValue v0 spec (joinPath path k0) rep).1, ?_, ?_⟩
        · rcases hsv : (sanitizeValue v0 spec (joinPath path k0) rep).1 with _ | sv <;>
            simp [sanitizeObject, hlk, hnull, hsv]
        · simp [sanitizeObject, hlk, hnull]

/-- Behaviour of `sanitizeObject` on any one key of the input object (keys
unique, as produced by a Go map): a non-whitelisted key is dropped with the
drop recorded; a null value of a non-nullable field is dropped with the drop
recorded, and kept when the field is nullable. -/
theorem sanitizeObject_key_cases (data : List (String × JValue))
    (allowed : List (String × FieldSpec)) (path : String) (rep : ValidationReport)
    (key : String) (value : JValue)
    (hnd : (data.map Prod.fst).Nodup) (hmem : (key, value) ∈ data) :
    (lookupField allowed key = none →
        (∀ v, (key, v) ∉ (sanitizeObject data allowed path rep).1)
        ∧ { Path := joinPath path key, Action := ValidationAction.removed,
            Reason := "not in whitelist" } ∈ (sanitizeObject data allowed path rep).2.Entries)
    ∧ (∀ spec, lookupField allowed key = some spec → value = .null →
        (spec.Nullable = true → (key, JValue.null) ∈ (sanitizeObject data allowed path rep).1)
        ∧ (spec.Nullable = false →
            (∀ v, (key, v) ∉ (sanitizeObject data allowed path rep).1)
            ∧ { Path := joinPath path key, Action := ValidationAction.removed,
                Reason := "null not allowed" }
              ∈ (sanitizeObject data allowed path rep).2.Entries)) := by
  revert hnd hmem
  induction data generalizing rep with
  | nil =>
      intro hnd hmem
      simp at hmem
  | cons head rest ihd =>
      intro hnd hmem
      obtain ⟨k0, v0⟩ := head
      have hnd0 : k0 ∉ rest.map Prod.fst ∧ (rest.map Prod.fst).Nodup := by
        simpa [List.nodup_cons] using hnd
      rcases List.mem_cons.mp hmem with heq | hmem2
      · have h1 : key = k0 := congrArg Prod.fst heq
        have h2 : value = v0 := congrArg Prod.snd heq
        subst h1
        subst h2
        refine ⟨fun hlk => ?_, fun spec hlk hvn => ?_⟩
        · constructor
          · intro v hv
            rw [show (sanitizeObject ((key, value) :: rest) allowed path rep).1
                = (sanitizeObject rest allowed path
                    (rep.AddEntry (joinPath path key) .removed "not in whitelist")).1
              from by simp [sanitizeObject, hlk]] at hv
            exact hnd0.1 (sanitizeObject_keys_subset rest allowed path _ (key, v) hv)
          · rw [show (sanitizeObject ((key, value) :: rest) allowed path rep).2
                = (sanitizeObject rest allowed path
                    (rep.AddEntry (joinPath path key) .removed "not in whitelist")).2
              from by simp [sanitizeObject, hlk]]
            obtain ⟨l, hl⟩ := sanitizeObject_entries_extend rest allowed path
              (rep.AddEntry (joinPath path key) .removed "not in whitelist")
            rw [hl]
            simp [ValidationReport.AddEntry]
        · subst hvn
          refine ⟨fun hnb => ?_, fun hnb => ?_⟩
          · rw [show (sanitizeObject ((key, JValue.null) :: rest) allowed path rep).1
                = (key, JValue.null) :: (sanitizeObject rest allowed path rep).1
              from by simp [sanitizeObject, hlk, hnb, JValue.isNull]]
            simp
          · have hnb2 : ¬spec.Nullable = true := by simp [hnb]
            constructor
            · intro v hv
              rw [show (sanitizeObject ((key, JValue.null) :: rest) allowed path rep).1
                  = (sanitizeObject rest allowed path
                      (rep.AddEntry (joinPath path key) .removed "null not allowed")).1
                from by simp [sanitizeObject, hlk, hnb2, JValue.isNull]] at hv
              exact hnd0.1 (sanitizeObject_keys_subset rest allowed path _ (key, v) hv)
            · rw [show (sanitizeObject ((key, JValue.null) :: rest) allowed path rep).2
                  = (sanitizeObject rest allowed path
                      (rep.AddEntry (joinPath path key) .removed "null not allowed")).2
                from by simp [sanitizeObject, hlk, hnb2, JValue.isNull]]
              obtain ⟨l, hl⟩ := sanitizeObject_entries_extend rest allowed path
                (rep.AddEntry (joinPath path key) .removed "null not allowed")
              rw [hl]
              simp [ValidationReport.AddEntry]
      · obtain ⟨rep2, mh, hres1, hres2⟩ := sanitizeObject_cons_shape k0 v0 rest allowed path rep
        have hkey : key ∈ rest.map Prod.fst := List.mem_map.mpr ⟨(key, value), hmem2, rfl⟩
        have hkne : key ≠ k0 := fun h => hnd0.1 (h ▸ hkey)
        have IH := ihd rep2 hnd0.2 hmem2
        refine ⟨fun hlk => ?_, fun spec hlk hvn => ?_⟩
        · obtain ⟨IHnot, IHe⟩ := IH.1 hlk
          refine ⟨fun v hv => ?_, ?_⟩
          · rw [hres1] at hv
            cases mh with
            | none => exact IHnot v hv
            | some hv0 =>
                rcases List.mem_cons.mp hv with hEq | hv2
                · exact hkne (congrArg Prod.fst hEq)
                · exact IHnot v hv2
          · rw [hres2]
            exact IHe
        · have hB := IH.2 spec hlk hvn
          refine ⟨fun hnb => ?_, fun hnb => ?_⟩
          · rw [hres1]
            cases mh with
            | none => exact hB.1 hnb
            | some hv0 => exact List.mem_cons_of_mem _ (hB.1 hnb)
          · obtain ⟨IHnot, IHe⟩ := hB.2 hnb
            refine ⟨fun v hv => ?_, ?_⟩
            · rw [hres1] at hv
              cases mh with
              | none => exact IHnot v hv
              | some hv0 =>
                  rcases List.mem_cons.mp hv with hEq | hv2
                  · exact hkne (congrArg Prod.fst hEq)
                  · exact IHnot v hv2
            · rw [hres2]
              exact IHe

/-! ## Claims about the payload sanitizer -/

/-- C9 counterexample: a whitelisted field typed `string` carrying the literal
string "undefined" is passed through unchanged with nothing recorded, so the
sanitizer does not strip every literal "undefined" string value; and a null
array item is silently dropped — not kept despite a nullable item spec, and
with no entry recorded. -/
theorem C9_counterexample :
    sanitizeObject [("text", JValue.str "undefined")]
        [("text", FieldSpec.mk .string false none none)] ""
        { SpecName := "VertexGeminiRequest" }
      = ([("text", JValue.str "undefined")], { SpecName := "VertexGeminiRequest" })
    ∧ sanitizeArray [JValue.null] (some (FieldSpec.mk .string true none none)) "arr"
        { SpecName := "VertexGeminiRequest" } 0
      = ([], { SpecName := "VertexGeminiRequest" }) := by
  constructor
  · simp [sanitizeObject, sanitizeValue, lookupField, FieldSpec.ftype, JValue.isNull, joinPath]
  · conv_lhs => rw [sanitizeArray.eq_def]
    simp [JValue.isNull]
    rw [sanitizeArray.eq_def]

/-- C9 (amended): for every JSON object and whitelist (keys unique, as a Go
map yields), the sanitizer drops every field whose key is not on the
whitelist, and removes null values from fields whose spec is not nullable
(keeping nulls exactly where `Nullable` is set), recording each removal in
the report; literal "[undefined]" / "undefined" strings are stripped, with a
report entry, where values are sanitized untyped (through `sanitizeAnyValue`),
while a whitelisted field typed `string` passes them through. -/
theorem C9_sanitizer_rules (data : List (String × JValue))
    (allowed : List (String × FieldSpec)) (path : String) (rep : ValidationReport)
    (key : String) (value : JValue)
    (hnd : (data.map Prod.fst).Nodup) (hmem : (key, value) ∈ data) :
    (lookupField allowed key = none →
        (∀ v, (key, v) ∉ (sanitizeObject data allowed path rep).1)
        ∧ { Path := joinPath path key, Action := ValidationAction.removed,
            Reason := "not in whitelist" } ∈ (sanitizeObject data allowed path rep).2.Entries)
    ∧ (∀ spec, lookupField allowed key = some spec → value = .null →
        (spec.Nullable = true → (key, JValue.null) ∈ (sanitizeObject data allowed path rep).1)
        ∧ (spec.Nullable = false →
            (∀ v, (key, v) ∉ (sanitizeObject data allowed path rep).1)
            ∧ { Path := joinPath path key, Action := ValidationAction.removed,
                Reason := "null not allowed" }
              ∈ (sanitizeObject data allowed path rep).2.Entries))
    ∧ (∀ (s p : String) (r : ValidationReport), s = "[undefined]" ∨ s = "undefined" →
        sanitizeAnyValue (.str s) p r = (none, r.AddEntry p .removed "undefined value"))
    ∧ (∀ (sp : FieldSpec) (p : String) (r : ValidationReport) (s : String),
        sp.ftype = .string → sanitizeValue (.str s) sp p r = (some (.str s), r)) := by
  obtain ⟨hA, hB⟩ := sanitizeObject_key_cases data allowed path rep key value hnd hmem
  refine ⟨hA, hB, ?_, ?_⟩
  · intro s p r hs
    simp [sanitizeAnyValue, hs]
  · intro sp p r s hft
    simp [sanitizeValue, hft]

/-- Witness for the amended C9: a non-whitelisted field is dropped and the
drop is recorded; a literal "undefined" in an untyped position is stripped
with an entry; a string-typed field keeps it. -/
theorem C9_sanitizer_rules_witness :
    ("unknownField", JValue.str "x")
        ∉ (sanitizeObject [("unknownField", JValue.str "x")] [] ""
            { SpecName := "VertexGeminiRequest" }).1
    ∧ { Path := "unknownField", Action := ValidationAction.removed,
        Reason := "not in whitelist" }
        ∈ (sanitizeObject [("unknownField", JValue.str "x")] [] ""
            { SpecName := "VertexGeminiRequest" }).2.Entries
    ∧ sanitizeAnyValue (.str "undefined") "request.contents[0].parts[0].text"
        { SpecName := "antigravity" }
      = (none, ValidationReport.AddEntry { SpecName := "antigravity" }
          "request.contents[0].parts[0].text" .removed "undefined value")
    ∧ sanitizeValue (.str "undefined") (FieldSpec.mk .string false none none)
        "text" { SpecName := "VertexGeminiRequest" }
      = (some (.str "undefined"), { SpecName := "VertexGeminiRequest" }) := by
  have h := C9_sanitizer_rules [("unknownField", JValue.str "x")] [] ""
    { SpecName := "VertexGeminiRequest" } "unknownField" (JValue.str "x")
    (by simp) (by simp)
  obtain ⟨hnot, hentry⟩ := h.1 rfl
  exact ⟨hnot _, hentry,
    h.2.2.1 "undefined" "request.contents[0].parts[0].text" { SpecName := "antigravity" }
      (Or.inr rfl),
    h.2.2.2 (FieldSpec.mk .string false none none) "text"
      { SpecName := "VertexGeminiRequest" } "undefined" rfl⟩

/-- C10: `ValidateAndSanitizePayload` always returns a payload and a report,
and passes the original payload through with `Changed = false` whenever the
spec is nil, the payload is empty, or the payload does not parse as a JSON
object. -/
theorem C10_validate_passthrough (parse : String → Option (List (String × JValue)))
    (render : List (String × JValue) → Option String) (payload : String)
    (spec : Option PayloadSpec)
    (h : spec = none ∨ payload.isEmpty = true ∨ parse payload = none) :
    (ValidateAndSanitizePayload parse render payload spec).1 = payload
    ∧ (ValidateAndSanitizePayload parse render payload spec).2.Changed = false := by
  rcases h with rfl | h | h
  · exact ⟨rfl, rfl⟩
  · cases spec with
    | none => exact ⟨rfl, rfl⟩
    | some s =>
        simp only [ValidateAndSanitizePayload]
        rw [if_pos h]
        exact ⟨rfl, rfl⟩
  · cases spec with
    | none => exact ⟨rfl, rfl⟩
    | some s =>
        simp only [ValidateAndSanitizePayload]
        by_cases he : payload.isEmpty = true
        · rw [if_pos he]
          exact ⟨rfl, rfl⟩
        · rw [if_neg he, h]
          exact ⟨rfl, rfl⟩

/-- Witness for C10: an unparseable payload passes through unsanitized with an
unchanged report. -/
theorem C10_validate_passthrough_witness :
    (ValidateAndSanitizePayload (fun _ => none) (fun _ => none) "invalid json"
        (some { Name := "antigravity", Fields := [] })).1 = "invalid json"
    ∧ (ValidateAndSanitizePayload (fun _ => none) (fun _ => none) "invalid json"
        (some { Name := "antigravity", Fields := [] })).2.Changed = false :=
  C10_validate_passthrough (fun _ => none) (fun _ => none) "invalid json"
    (some { Name := "antigravity", Fields := [] }) (Or.inr (Or.inr rfl))

end LlmMux
